import Mathlib

/-
Verification of the zoossh consensus and descriptor store against its
natural-language specification.  Go strings are modelled as lists of
characters, Go maps as association lists with distinct keys, Go multiple
return values with an error as an Except value, and a Go runtime fault
(such as an out-of-range slice index) as a distinct error constructor.
-/

set_option autoImplicit false

namespace Zoossh

/-- Go strings, modelled as lists of characters. -/
abbrev Str := List Char

/-- Embeds a Lean string literal into the model. -/
def lit (s : String) : Str := s.data

/-- Fingerprint represents a relay fingerprint as 40 hex digits
(generic.go, type Fingerprint string). -/
abbrev Fingerprint := Str

/-- bytes.HasPrefix / strings.HasPrefix. -/
def startsWith (s pre : Str) : Bool := pre.isPrefixOf s

/-- bytes.Index and strings.Index: index of the first occurrence of pat in
the second argument, none when absent (Go returns -1). -/
def strIndex (pat : Str) : Str → Option Nat
  | [] => if pat.isPrefixOf ([] : Str) then some 0 else none
  | c :: t => if pat.isPrefixOf (c :: t) then some 0 else (strIndex pat t).map (· + 1)

/-- strings.Split with a one-character separator.  Like Go, the result is
never empty and keeps empty fields between adjacent separators. -/
def split1 (sep : Char) : Str → List Str
  | [] => [[]]
  | c :: rest =>
    if c = sep then [] :: split1 sep rest
    else
      match split1 sep rest with
      | g :: gs => (c :: g) :: gs
      | [] => [[c]]

/-- strings.Join with a separator string. -/
def joinWith (sep : Str) : List Str → Str
  | [] => []
  | [w] => w
  | w :: rest => w ++ sep ++ joinWith sep rest

/-- The white-space test of unicode.IsSpace restricted to Latin-1, used by
strings.TrimSpace. -/
def goIsSpace (c : Char) : Bool :=
  c = ' ' || c = '\t' || c = '\n' || c = '\x0B' || c = '\x0C' || c = '\r' ||
    c = '\x85' || c = '\xA0'

/-- strings.TrimSpace: removes leading and trailing white space. -/
def goTrimSpace (s : Str) : Str :=
  ((s.dropWhile goIsSpace).reverse.dropWhile goIsSpace).reverse

/-- strings.ToUpper, with the ASCII case mapping. -/
def goToUpper (s : Str) : Str := s.map Char.toUpper

/-- SanitiseFingerprint returns a sanitised version of the given fingerprint
by making it upper case and removing leading and trailing white spaces
(util.go). -/
def SanitiseFingerprint (fingerprint : Fingerprint) : Fingerprint :=
  goToUpper (goTrimSpace fingerprint)

/-- Value of one character of the standard base64 alphabet
(encoding/base64.StdEncoding). -/
def b64Val (c : Char) : Option Nat :=
  if 'A' ≤ c ∧ c ≤ 'Z' then some (c.toNat - 65)
  else if 'a' ≤ c ∧ c ≤ 'z' then some (c.toNat - 97 + 26)
  else if '0' ≤ c ∧ c ≤ '9' then some (c.toNat - 48 + 52)
  else if c = '+' then some 62
  else if c = '/' then some 63
  else none

/-- Standard base64 decoding of four-character groups with trailing padding,
as done by base64.StdEncoding.DecodeString; none models a decode error. -/
def b64Groups : Str → Option (List Nat)
  | [] => some []
  | c1 :: c2 :: c3 :: c4 :: rest =>
    match b64Val c1, b64Val c2 with
    | some v1, some v2 =>
      if c3 = '=' then
        if c4 = '=' ∧ rest = [] then some [v1 * 4 + v2 / 16] else none
      else
        match b64Val c3 with
        | some v3 =>
          if c4 = '=' then
            if rest = [] then some [v1 * 4 + v2 / 16, v2 % 16 * 16 + v3 / 4] else none
          else
            match b64Val c4, b64Groups rest with
            | some v4, some more =>
              some ([v1 * 4 + v2 / 16, v2 % 16 * 16 + v3 / 4, v3 % 4 * 64 + v4] ++ more)
            | _, _ => none
        | none => none
    | _, _ => none
  | _ => none

/-- base64.StdEncoding.DecodeString: newline characters are skipped, then the
input is decoded in groups of four characters. -/
def b64DecodeString (s : Str) : Option (List Nat) :=
  b64Groups (s.filter fun c => ¬(c = '\n' ∨ c = '\r'))

/-- One lower-case hexadecimal digit. -/
def hexDigit (n : Nat) : Char :=
  if n < 10 then Char.ofNat (48 + n) else Char.ofNat (97 + n - 10)

/-- hex.EncodeToString: lower-case hexadecimal rendering of a byte list. -/
def hexOfBytes : List Nat → Str
  | [] => []
  | b :: rest => hexDigit (b / 16) :: hexDigit (b % 16) :: hexOfBytes rest

/-- Base64ToString (util.go): pads the input to a multiple of four with
equals signs, decodes it as standard base64, and renders the bytes in
hexadecimal.  An error is reported as Except.error. -/
def Base64ToString (encoded : Str) : Except Str Str :=
  let padded :=
    if encoded.length % 4 = 0 then encoded
    else encoded ++ List.replicate (4 - encoded.length % 4) '='
  match b64DecodeString padded with
  | some bytes => .ok (hexOfBytes bytes)
  | none => .error (lit "illegal base64 data")

/-- Decimal value of a digit string. -/
def decVal (s : Str) : Nat := s.foldl (fun acc c => acc * 10 + (c.toNat - 48)) 0

/-- strconv.ParseUint core: a non-empty all-digit string parses, anything
else is a syntax error (none). -/
def parseUintCore (s : Str) : Option Nat :=
  if s ≠ [] ∧ s.all Char.isDigit then some (decVal s) else none

/-- StringToPort (util.go): strconv.ParseUint(portStr, 10, 16); on any
error, including a value beyond 16 bits, 0 is returned. -/
def StringToPort (portStr : Str) : Nat :=
  match parseUintCore portStr with
  | some n => if n < 65536 then n else 0
  | none => 0

/-- strconv.ParseUint(s, 10, 64) with the error ignored, as in the
bandwidth branch of ParseRawStatus: a syntax error yields 0, a range error
yields the 64-bit maximum. -/
def parseUint64Lax (s : Str) : Nat :=
  match parseUintCore s with
  | some n => if n < 2 ^ 64 then n else 2 ^ 64 - 1
  | none => 0

/-- An IPv4 address as four bytes. -/
abbrev IPv4 := Nat × Nat × Nat × Nat

/-- One dotted-decimal field: one to three digits, value at most 255. -/
def parseDecByte (s : Str) : Option Nat :=
  if s ≠ [] ∧ s.length ≤ 3 ∧ s.all Char.isDigit then
    if decVal s ≤ 255 then some (decVal s) else none
  else none

/-- net.ParseIP modelled for the dotted-quad IPv4 case; every other input
yields none, as the nil net.IP. -/
def parseIP (s : Str) : Option IPv4 :=
  match split1 '.' s with
  | [a, b, c, d] =>
    match parseDecByte a, parseDecByte b, parseDecByte c, parseDecByte d with
    | some a', some b', some c', some d' => some (a', b', c', d')
    | _, _, _, _ => none
  | _ => none

/-- net.IP.String for the model: dotted decimal, and the nil address prints
as the angle-bracketed nil marker. -/
def ipString : Option IPv4 → Str
  | none => lit "<nil>"
  | some (a, b, c, d) =>
    (Nat.repr a).data ++ '.' :: (Nat.repr b).data ++ '.' :: (Nat.repr c).data ++
      '.' :: (Nat.repr d).data

/-- RouterFlags (consensus.go). -/
structure RouterFlags where
  Authority : Bool
  BadExit : Bool
  Exit : Bool
  Fast : Bool
  Guard : Bool
  HSDir : Bool
  Named : Bool
  Stable : Bool
  Running : Bool
  Unnamed : Bool
  Valid : Bool
  V2Dir : Bool
deriving DecidableEq, Repr

/-- The Go zero value of RouterFlags, as produced by new(RouterFlags). -/
def newRouterFlags : RouterFlags :=
  ⟨false, false, false, false, false, false, false, false, false, false, false, false⟩

/-- parseRouterFlags (consensus.go): each recognised token sets one flag,
unknown tokens are ignored. -/
def parseRouterFlags (flags : List Str) : RouterFlags :=
  flags.foldl (fun rf flag =>
    if flag = lit "Authority" then { rf with Authority := true }
    else if flag = lit "BadExit" then { rf with BadExit := true }
    else if flag = lit "Exit" then { rf with Exit := true }
    else if flag = lit "Fast" then { rf with Fast := true }
    else if flag = lit "Guard" then { rf with Guard := true }
    else if flag = lit "HSDir" then { rf with HSDir := true }
    else if flag = lit "Named" then { rf with Named := true }
    else if flag = lit "Stable" then { rf with Stable := true }
    else if flag = lit "Running" then { rf with Running := true }
    else if flag = lit "Unnamed" then { rf with Unnamed := true }
    else if flag = lit "Valid" then { rf with Valid := true }
    else if flag = lit "V2Dir" then { rf with V2Dir := true }
    else rf) newRouterFlags

/-- RouterStatus (consensus.go).  Publication keeps the raw timestamp text
handed to time.Parse, and Address is the result of net.ParseIP. -/
structure RouterStatus where
  Nickname : Str
  Fingerprint : Fingerprint
  Digest : Str
  Publication : Str
  Address : Option IPv4
  ORPort : Nat
  DirPort : Nat
  Flags : RouterFlags
  TorVersion : Str
  Bandwidth : Nat
  Measured : Nat
  Unmeasured : Bool
  Accept : Bool
  PortList : Str
deriving DecidableEq, Repr

/-- The Go zero value of RouterStatus, as produced by new(RouterStatus). -/
def newRouterStatus : RouterStatus :=
  { Nickname := [], Fingerprint := [], Digest := [], Publication := [],
    Address := none, ORPort := 0, DirPort := 0, Flags := newRouterFlags,
    TorVersion := [], Bandwidth := 0, Measured := 0, Unmeasured := false,
    Accept := false, PortList := [] }

/-- How a Go function can fail: a runtime fault (out-of-range index or a
nil function call), or an error value carrying a message. -/
inductive Fail where
  | crash
  | msg (text : Str)
deriving DecidableEq, Repr

/-- Result monad for the embedded Go code. -/
abbrev GoM (α : Type) := Except Fail α

/-- Go slice indexing ws[i]: a runtime fault when out of range. -/
def getw (ws : List Str) (i : Nat) : GoM Str :=
  match ws[i]? with
  | some w => .ok w
  | none => .error .crash

/-- Go slicing ws[lo:hi]: a runtime fault unless lo and hi are in bounds. -/
def slicew (ws : List Str) (lo hi : Nat) : GoM (List Str) :=
  if lo ≤ hi ∧ hi ≤ ws.length then .ok ((ws.drop lo).take (hi - lo))
  else .error .crash

/-- Lifts a Base64ToString result; the eager parser returns the base64
error to its caller. -/
def liftB64 (r : Except Str Str) : GoM Str :=
  match r with
  | .ok s => .ok s
  | .error e => .error (.msg e)

/-- One iteration of the line loop of ParseRawStatus (consensus.go): splits
the line on spaces and dispatches on the keyword, updating the status under
construction.  The field accesses follow the order of the source. -/
def parseStatusLine (status : RouterStatus) (line : Str) : GoM RouterStatus := do
  let words := split1 ' ' line
  let w0 := words.headD []
  if w0 = lit "r" then do
    let w1 ← getw words 1
    let status := { status with Nickname := w1 }
    let w2 ← getw words 2
    let fingerprint ← liftB64 (Base64ToString w2)
    let status := { status with Fingerprint := SanitiseFingerprint fingerprint }
    let w3 ← getw words 3
    let digest ← liftB64 (Base64ToString w3)
    let status := { status with Digest := digest }
    let ts ← slicew words 4 6
    let status := { status with Publication := joinWith (lit " ") ts }
    let w6 ← getw words 6
    let status := { status with Address := parseIP w6 }
    let w7 ← getw words 7
    let status := { status with ORPort := StringToPort w7 }
    let w8 ← getw words 8
    pure { status with DirPort := StringToPort w8 }
  else if w0 = lit "s" then do
    let rest ← slicew words 1 words.length
    pure { status with Flags := parseRouterFlags rest }
  else if w0 = lit "v" then do
    let w2 ← getw words 2
    pure { status with TorVersion := w2 }
  else if w0 = lit "w" then do
    let bwExpr ← getw words 1
    let values := split1 '=' bwExpr
    let v1 ← getw values 1
    pure { status with Bandwidth := parseUint64Lax v1 }
  else if w0 = lit "p" then do
    let w1 ← getw words 1
    let status :=
      if w1 = lit "accept" then { status with Accept := true }
      else { status with Accept := false }
    let rest ← slicew words 2 words.length
    pure { status with PortList := joinWith (lit " ") rest }
  else
    pure status

/-- ParseRawStatus (consensus.go): folds the line parser over the lines of
the raw status and returns the fingerprint together with the status the
returned closure yields. -/
def ParseRawStatus (rawStatus : Str) : GoM (Fingerprint × RouterStatus) := do
  let lines := split1 '\n' rawStatus
  let status ← lines.foldlM parseStatusLine newRouterStatus
  pure (status.Fingerprint, status)

/-- The fingerprint scan of LazyParseRawStatus (consensus.go): the first
line whose first word is r yields the sanitised decoded fingerprint, along
with the error value the Go function returns next to it. -/
def lazyFingerprintScan : List Str → GoM (Fingerprint × Option Str)
  | [] => .ok ([], some (lit "Could not extract relay fingerprint."))
  | line :: rest =>
    let words := split1 ' ' line
    if words.headD [] = lit "r" then do
      let w2 ← getw words 2
      match Base64ToString w2 with
      | .ok fingerprint => pure (SanitiseFingerprint fingerprint, none)
      | .error e => pure (SanitiseFingerprint [], some e)
    else
      lazyFingerprintScan rest

/-- LazyParseRawStatus (consensus.go), immediate part: only the fingerprint
is pulled out; full parsing is delayed. -/
def LazyParseRawStatus (rawStatus : Str) : GoM (Fingerprint × Option Str) :=
  lazyFingerprintScan (split1 '\n' rawStatus)

/-- The closure returned by LazyParseRawStatus: it reruns ParseRawStatus on
the captured chunk and calls the returned closure; when the eager parse
failed that closure is nil and the call is a runtime fault. -/
def lazyResolve (rawStatus : Str) : GoM RouterStatus :=
  match ParseRawStatus rawStatus with
  | .ok p => .ok p.2
  | .error _ => .error .crash

/-- Result of one call of a bufio.SplitFunc: more means advance 0, no
token and no error (request more data, or clean stop at end of input). -/
inductive SplitResult where
  | more
  | token (advance : Nat) (tok : Str) (final : Bool)
  | fail (text : Str)
deriving DecidableEq, Repr

/-- The start-position search of extractStatusEntry (consensus.go): offset
0 when the buffer begins with the record marker, otherwise one past the
first newline-anchored occurrence of the marker. -/
def findStart (data : Str) : Option Nat :=
  if startsWith data (lit "r ") then some 0
  else
    match strIndex (lit "\nr ") data with
    | none => none
    | some i => some (i + 1)

/-- Error text of the missing-start case of extractStatusEntry. -/
def missingStartText : Str :=
  lit "Cannot find beginning of status entry: \"\\nr \""

/-- Error text of the unterminated-record case of extractStatusEntry. -/
def unterminatedText : Str :=
  lit "Cannot find the end of status entry: \"\\nr \" or \"directory-signature\""

/-- extractStatusEntry (consensus.go): a bufio.SplitFunc that extracts one
network status entry per call.  The final flag models bufio.ErrFinalToken. -/
def extractStatusEntry (data : Str) (atEOF : Bool) : SplitResult :=
  if atEOF ∧ data = [] then .more
  else
    match findStart data with
    | none => if atEOF then .fail missingStartText else .more
    | some start =>
      match strIndex (lit "\nr ") (data.drop start) with
      | some e => .token (start + e + 1) ((data.drop start).take (e + 1)) false
      | none =>
        match strIndex (lit "directory-signature") (data.drop start) with
        | some e => .token (start + e) ((data.drop start).take e) true
        | none => if atEOF then .fail unterminatedText else .more

/-- Driver equivalent to bufio.Scanner over a fully buffered input at end
of file: repeated calls of the split function, collecting the tokens and
stopping at a final token, a clean end, or an error.  The fuel argument
bounds the recursion; each produced non-final token advances the cursor. -/
def scanFuel : Nat → Str → Except Str (List Str)
  | 0, _ => .error (lit "out of fuel")
  | fuel + 1, data =>
    match extractStatusEntry data true with
    | .more => .ok []
    | .fail text => .error text
    | .token advance tok final =>
      if final then .ok [tok]
      else (scanFuel fuel (data.drop advance)).map (tok :: ·)

/-- Tokenizing a complete in-memory document with extractStatusEntry. -/
def scanTokens (data : Str) : Except Str (List Str) :=
  scanFuel (data.length + 1) data

/-- A Go map from fingerprints to handles, modelled as an association list
looked up on the first matching key. -/
abbrev Store (H : Type) := List (Fingerprint × H)

/-- Map read m[k]. -/
def storeLookup {H : Type} : Store H → Fingerprint → Option H
  | [], _ => none
  | (k', v) :: rest, k => if k' = k then some v else storeLookup rest k

/-- Map write m[k] = v: replaces the binding when the key is present,
otherwise adds it. -/
def storeSet {H : Type} : Store H → Fingerprint → H → Store H
  | [], k, v => [(k, v)]
  | (k', v') :: rest, k, v =>
    if k' = k then (k, v) :: rest else (k', v') :: storeSet rest k v

/-- The key list of a store. -/
def storeKeys {H : Type} (m : Store H) : List Fingerprint := m.map Prod.fst

/-- A consensus, reduced to its router status map; a GetStatus closure is
modelled by the status it returns. -/
abbrev Consensus := Store RouterStatus

/-- Consensus.Get (consensus.go): sanitises the fingerprint, then reads the
map. -/
def Consensus.Get (c : Consensus) (fingerprint : Fingerprint) : Option RouterStatus :=
  storeLookup c (SanitiseFingerprint fingerprint)

/-- Consensus.Set (consensus.go): sanitises the fingerprint, then writes
the map. -/
def Consensus.Set (c : Consensus) (fingerprint : Fingerprint) (status : RouterStatus) :
    Consensus :=
  storeSet c (SanitiseFingerprint fingerprint) status

/-- The loop body of Consensus.Merge (consensus.go) over the statuses the
other set yields: a status whose fingerprint is not yet present is
inserted, an existing binding is kept. -/
def Consensus.MergeLoop (c : Consensus) : List RouterStatus → Consensus
  | [] => c
  | obj :: rest =>
    let fpr := obj.Fingerprint
    let c' := if (Consensus.Get c fpr).isSome then c else Consensus.Set c fpr obj
    Consensus.MergeLoop c' rest

/-- Consensus.Merge (consensus.go): iterates over the statuses of the given
object set with a nil filter. -/
def Consensus.Merge (c : Consensus) (objs : Consensus) : Consensus :=
  Consensus.MergeLoop c (objs.map Prod.snd)

/-- The loop of Consensus.Subtract (consensus.go), threading the receiver,
the argument and the remainder map through each iteration: an entry of a
whose fingerprint is absent from b is copied into the remainder. -/
def Consensus.SubtractLoop :
    List (Fingerprint × RouterStatus) → Consensus × Consensus × Consensus →
      Consensus × Consensus × Consensus
  | [], st => st
  | (fingerprint, getStatus) :: rest, (a, b, remainder) =>
    let remainder :=
      if (storeLookup b fingerprint).isSome then remainder
      else storeSet remainder fingerprint getStatus
    Consensus.SubtractLoop rest (a, b, remainder)

/-- Consensus.Subtract (consensus.go), with the full final state: the loop
starts from a freshly allocated empty remainder. -/
def Consensus.SubtractFull (a b : Consensus) : Consensus × Consensus × Consensus :=
  Consensus.SubtractLoop a (a, b, [])

/-- The returned remainder of Consensus.Subtract. -/
def Consensus.Subtract (a b : Consensus) : Consensus :=
  (Consensus.SubtractFull a b).2.2

/-- The loop of Consensus.Intersect (consensus.go), threading the receiver,
the argument and the intersection map: an entry of a whose fingerprint is
present in b is copied into the intersection. -/
def Consensus.IntersectLoop :
    List (Fingerprint × RouterStatus) → Consensus × Consensus × Consensus →
      Consensus × Consensus × Consensus
  | [], st => st
  | (fingerprint, getStatus) :: rest, (a, b, intersection) =>
    let intersection :=
      if (storeLookup b fingerprint).isSome then storeSet intersection fingerprint getStatus
      else intersection
    Consensus.IntersectLoop rest (a, b, intersection)

/-- Consensus.Intersect (consensus.go), with the full final state. -/
def Consensus.IntersectFull (a b : Consensus) : Consensus × Consensus × Consensus :=
  Consensus.IntersectLoop a (a, b, [])

/-- The returned intersection of Consensus.Intersect. -/
def Consensus.Intersect (a b : Consensus) : Consensus :=
  (Consensus.IntersectFull a b).2.2

/-- ObjectFilter (generic.go): three category sets, modelled as lists with
membership as the set test. -/
structure ObjectFilter where
  Fingerprints : List Fingerprint
  IPAddrs : List Str
  Nicknames : List Str
deriving DecidableEq

/-- ObjectFilter.HasFingerprint (generic.go). -/
def ObjectFilter.HasFingerprint (filter : ObjectFilter) (fpr : Fingerprint) : Bool :=
  filter.Fingerprints.contains fpr

/-- ObjectFilter.HasIPAddr (generic.go): membership of the rendered address
string. -/
def ObjectFilter.HasIPAddr (filter : ObjectFilter) (addr : Option IPv4) : Bool :=
  filter.IPAddrs.contains (ipString addr)

/-- ObjectFilter.HasNickname (generic.go). -/
def ObjectFilter.HasNickname (filter : ObjectFilter) (nickname : Str) : Bool :=
  filter.Nicknames.contains nickname

/-- ObjectFilter.IsEmpty (generic.go): all three category sets have length
zero. -/
def ObjectFilter.IsEmpty (filter : ObjectFilter) : Bool :=
  filter.Fingerprints.isEmpty && filter.IPAddrs.isEmpty && filter.Nicknames.isEmpty

/-- ObjectFilter.MatchesRouterStatus (consensus.go): address first, then
fingerprint, then nickname, each an early true. -/
def ObjectFilter.MatchesRouterStatus (filter : ObjectFilter) (status : RouterStatus) : Bool :=
  filter.HasIPAddr status.Address || filter.HasFingerprint status.Fingerprint ||
    filter.HasNickname status.Nickname

/-- Consensus.Iterate (consensus.go): every status of the map is sent when
the filter is nil, empty, or matches it. -/
def Consensus.Iterate (c : Consensus) (filter : Option ObjectFilter) : List RouterStatus :=
  (c.map Prod.snd).filter fun status =>
    match filter with
    | none => true
    | some f => f.IsEmpty || f.MatchesRouterStatus status

/-- A router descriptor, reduced to the fields the merge path reads; the
fingerprint is what GetFingerprint returns. -/
structure RouterDescriptor where
  Nickname : Str
  Fingerprint : Fingerprint
deriving DecidableEq, Repr

/-- The descriptor store, a map from fingerprint to a GetDescriptor
closure, modelled by the descriptor it returns. -/
abbrev RouterDescriptors := Store RouterDescriptor

/-- RouterDescriptors.Get (descriptor.go): sanitises, then reads the map. -/
def RouterDescriptors.Get (d : RouterDescriptors) (fingerprint : Fingerprint) :
    Option RouterDescriptor :=
  storeLookup d (SanitiseFingerprint fingerprint)

/-- RouterDescriptors.Set (descriptor.go): sanitises, then writes the map. -/
def RouterDescriptors.Set (d : RouterDescriptors) (fingerprint : Fingerprint)
    (descriptor : RouterDescriptor) : RouterDescriptors :=
  storeSet d (SanitiseFingerprint fingerprint) descriptor

/-- The loop body of RouterDescriptors.Merge (descriptor.go) over a list of
descriptors. -/
def RouterDescriptors.MergeLoop (d : RouterDescriptors) : List RouterDescriptor →
    RouterDescriptors
  | [] => d
  | desc :: rest =>
    let fpr := desc.Fingerprint
    let d' := if (RouterDescriptors.Get d fpr).isSome then d else RouterDescriptors.Set d fpr desc
    RouterDescriptors.MergeLoop d' rest

/-- RouterDescriptors.Merge (descriptor.go).  In the source the loop ranges
over descs.Iterate(), the receiver itself; the objs parameter is never
read. -/
def RouterDescriptors.Merge (descs : RouterDescriptors) (objs : RouterDescriptors) :
    RouterDescriptors :=
  RouterDescriptors.MergeLoop descs (descs.map Prod.snd)

/-- Consensus stores reachable through the public construction and
insertion operations: NewConsensus, Set, Merge, and the direct map write of
the parse loop of parseConsensusUnchecked, which stores the handle under
the sanitised fingerprint. -/
inductive Reachable : Consensus → Prop where
  | new : Reachable []
  | set (c : Consensus) (fp : Fingerprint) (st : RouterStatus) :
      Reachable c → Reachable (Consensus.Set c fp st)
  | merge (c objs : Consensus) :
      Reachable c → Reachable (Consensus.Merge c objs)
  | parseInsert (c : Consensus) (fp : Fingerprint) (st : RouterStatus) :
      Reachable c → Reachable (storeSet c (SanitiseFingerprint fp) st)

/-- The status projection of an eager parse, when it returns normally. -/
def statusOf (s : Str) : Option RouterStatus :=
  (ParseRawStatus s).toOption.map Prod.snd

/-- The fingerprint returned by the eager parser, when it returns
normally. -/
def eagerFpOf (s : Str) : Option Fingerprint :=
  (ParseRawStatus s).toOption.map Prod.fst

/-- The fingerprint returned by the lazy parser, when it returns
normally. -/
def lazyFpOf (s : Str) : Option Fingerprint :=
  (LazyParseRawStatus s).toOption.map Prod.fst

/-- A chunk position is a line-anchored record boundary: the record marker
follows offset 0 or a newline character. -/
def lineStartAt (data : Str) (i : Nat) : Prop :=
  (lit "r ") <+: data.drop i ∧ (i = 0 ∨ data[i - 1]? = some '\n')

/-- A line carries enough positional tokens for the field reads of the
recognised keyword branches of ParseRawStatus. -/
def lineTokenOK (line : Str) : Prop :=
  ((split1 ' ' line).headD [] = lit "r" → 9 ≤ (split1 ' ' line).length) ∧
  ((split1 ' ' line).headD [] = lit "v" → 3 ≤ (split1 ' ' line).length) ∧
  ((split1 ' ' line).headD [] = lit "w" →
    2 ≤ (split1 ' ' line).length ∧
    2 ≤ (split1 '=' ((split1 ' ' line).getD 1 [])).length) ∧
  ((split1 ' ' line).headD [] = lit "p" → 2 ≤ (split1 ' ' line).length)

/-- Every line of a raw status carries enough tokens for its keyword. -/
def wellFormedStatus (s : Str) : Prop :=
  ∀ line ∈ split1 '\n' s, lineTokenOK line

instance lineTokenOK_decidable (line : Str) : Decidable (lineTokenOK line) := by
  unfold lineTokenOK
  infer_instance

instance wellFormedStatus_decidable (s : Str) : Decidable (wellFormedStatus s) := by
  unfold wellFormedStatus
  infer_instance

/-- The number of lines whose first word is the record keyword r. -/
def countR (lines : List Str) : Nat :=
  (lines.filter fun l => (split1 ' ' l).headD [] = lit "r").length

/-- The number of r lines of a raw status. -/
def rLineCount (s : Str) : Nat := countR (split1 '\n' s)

/-- The record text of the concrete scenario of the specification. -/
def seeleRecordText : Str :=
  lit "r seele AAoQ1DAR6kkoo19hBAX5K0QztNw bdrzhG0Kk/8DUsnSdmzj7DjFQjY 2014-12-08 12:27:05 73.15.150.172 9001 0\ns Fast Running Stable Valid\nv Tor 0.2.5.10\nw Bandwidth=18\np reject 1-65535\n"

/-- The record text followed by the terminal marker. -/
def seeleInput : Str := seeleRecordText ++ lit "directory-signature"

/-- The flag set of the concrete scenario: Fast, Running, Stable and Valid
set, the rest clear. -/
def seeleFlags : RouterFlags :=
  { Authority := false, BadExit := false, Exit := false, Fast := true,
    Guard := false, HSDir := false, Named := false, Stable := true,
    Running := true, Unnamed := false, Valid := true, V2Dir := false }

/-- A raw status whose two r lines carry different fingerprints; both
decode, so the eager parse succeeds. -/
def twoRInput : Str :=
  lit "r a AAAA AAAA d t 1.2.3.4 1 2\nr b AAAB AAAB d t 1.2.3.4 1 2"

/-- A minimal raw status with exactly one r line. -/
def oneRInput : Str := lit "r n AAAA AAAA d t 1.2.3.4 1 2"

/-- The status the parsers produce for oneRInput. -/
def oneRStatus : RouterStatus :=
  { Nickname := lit "n", Fingerprint := lit "000000", Digest := lit "000000",
    Publication := lit "d t", Address := some (1, 2, 3, 4), ORPort := 1,
    DirPort := 2, Flags := newRouterFlags, TorVersion := [], Bandwidth := 0,
    Measured := 0, Unmeasured := false, Accept := false, PortList := [] }

/-- A buffer in which the record marker occurs once at a line start and
once in the middle of a line. -/
def midMarkerInput : Str := lit "r a\nx r y\nr b\ndirectory-signature"

/-- A descriptor used for evaluating the merge of descriptor stores. -/
def sampleDescriptor : RouterDescriptor :=
  { Nickname := lit "foo",
    Fingerprint := lit "0123456789ABCDEF0123456789ABCDEF01234567" }

/-- A one-element descriptor store holding sampleDescriptor. -/
def sampleDescStore : RouterDescriptors :=
  RouterDescriptors.Set [] sampleDescriptor.Fingerprint sampleDescriptor

end Zoossh

namespace Zoossh

theorem toNat_char_ofNat (n : Nat) (h : n < 55296) : (Char.ofNat n).toNat = n := by
  have hv : n.isValidChar := Or.inl h
  unfold Char.ofNat
  rw [dif_pos hv]
  rfl

theorem toUpper_toNat_of_lower (c : Char) (h1 : 97 ≤ c.toNat) (h2 : c.toNat ≤ 122) :
    (Char.toUpper c).toNat = c.toNat - 32 := by
  unfold Char.toUpper
  rw [if_pos ⟨h1, h2⟩]
  exact toNat_char_ofNat _ (by omega)

theorem toUpper_eq_self (c : Char) (h : ¬(97 ≤ c.toNat ∧ c.toNat ≤ 122)) :
    Char.toUpper c = c := by
  unfold Char.toUpper
  exact if_neg h

theorem char_eq_iff_toNat (c d : Char) : c = d ↔ c.toNat = d.toNat := by
  constructor
  · exact fun h => congrArg Char.toNat h
  · intro h
    rw [← Char.ofNat_toNat c, ← Char.ofNat_toNat d, h]

theorem toUpper_idem (c : Char) : Char.toUpper (Char.toUpper c) = Char.toUpper c := by
  by_cases h : 97 ≤ c.toNat ∧ c.toNat ≤ 122
  · have ht := toUpper_toNat_of_lower c h.1 h.2
    exact toUpper_eq_self _ (by omega)
  · have h2 := toUpper_eq_self c h
    rw [h2]
    exact h2

theorem goIsSpace_iff_toNat (c : Char) :
    goIsSpace c = true ↔
      c.toNat = 32 ∨ c.toNat = 9 ∨ c.toNat = 10 ∨ c.toNat = 11 ∨ c.toNat = 12 ∨
        c.toNat = 13 ∨ c.toNat = 133 ∨ c.toNat = 160 := by
  have h32 : (' ' : Char).toNat = 32 := rfl
  have h9 : ('\t' : Char).toNat = 9 := rfl
  have h10 : ('\n' : Char).toNat = 10 := rfl
  have h11 : ('\x0B' : Char).toNat = 11 := rfl
  have h12 : ('\x0C' : Char).toNat = 12 := rfl
  have h13 : ('\r' : Char).toNat = 13 := rfl
  have h133 : ('\x85' : Char).toNat = 133 := rfl
  have h160 : ('\xA0' : Char).toNat = 160 := rfl
  simp only [goIsSpace, Bool.or_eq_true, decide_eq_true_eq, char_eq_iff_toNat,
    h32, h9, h10, h11, h12, h13, h133, h160]
  tauto

theorem goIsSpace_toUpper (c : Char) : goIsSpace (Char.toUpper c) = goIsSpace c := by
  by_cases h : 97 ≤ c.toNat ∧ c.toNat ≤ 122
  · have ht := toUpper_toNat_of_lower c h.1 h.2
    have l1 : goIsSpace (Char.toUpper c) = false := by
      rw [← Bool.not_eq_true, goIsSpace_iff_toNat]
      omega
    have l2 : goIsSpace c = false := by
      rw [← Bool.not_eq_true, goIsSpace_iff_toNat]
      omega
    rw [l1, l2]
  · rw [toUpper_eq_self c h]

theorem goToUpper_idem (s : Str) : goToUpper (goToUpper s) = goToUpper s := by
  induction s with
  | nil => rfl
  | cons c t ih =>
    simp only [goToUpper, List.map_cons, List.map_map] at *
    rw [show Char.toUpper (Char.toUpper c) = Char.toUpper c from toUpper_idem c]
    exact congrArg _ ih

theorem goTrimSpace_as_rdrop (s : Str) :
    goTrimSpace s = List.rdropWhile goIsSpace (List.dropWhile goIsSpace s) := rfl

theorem dropWhile_rdrop_drop (p : Char → Bool) (s : Str) :
    List.dropWhile p (List.rdropWhile p (List.dropWhile p s)) =
      List.rdropWhile p (List.dropWhile p s) := by
  rcases h : List.rdropWhile p (List.dropWhile p s) with _ | ⟨c, t⟩
  · rfl
  · have hpre : List.rdropWhile p (List.dropWhile p s) <+: List.dropWhile p s :=
      List.rdropWhile_prefix p _
    rw [h] at hpre
    have hne : List.dropWhile p s ≠ [] := by
      intro hnil
      rw [hnil] at hpre
      exact absurd (List.prefix_nil.mp hpre) (by simp)
    have hhead : (c :: t).head (by simp) = (List.dropWhile p s).head hne :=
      hpre.head (by simp)
    have hnot : p ((List.dropWhile p s).head hne) = false := List.head_dropWhile_not p s hne
    rw [← hhead] at hnot
    simp only [List.head_cons] at hnot
    simp [List.dropWhile_cons, hnot]

theorem goTrimSpace_idem (s : Str) : goTrimSpace (goTrimSpace s) = goTrimSpace s := by
  rw [goTrimSpace_as_rdrop, goTrimSpace_as_rdrop, dropWhile_rdrop_drop,
    List.rdropWhile_idempotent]

theorem dropWhile_goToUpper (s : Str) :
    List.dropWhile goIsSpace (goToUpper s) = goToUpper (List.dropWhile goIsSpace s) := by
  rw [goToUpper, List.dropWhile_map]
  have : (goIsSpace ∘ Char.toUpper) = goIsSpace := funext goIsSpace_toUpper
  rw [this]
  rfl

theorem rdropWhile_goToUpper (s : Str) :
    List.rdropWhile goIsSpace (goToUpper s) = goToUpper (List.rdropWhile goIsSpace s) := by
  have hpf : (goIsSpace ∘ Char.toUpper) = goIsSpace := funext goIsSpace_toUpper
  simp only [List.rdropWhile, goToUpper, ← List.map_reverse, List.dropWhile_map, hpf]

theorem goTrimSpace_goToUpper (s : Str) :
    goTrimSpace (goToUpper s) = goToUpper (goTrimSpace s) := by
  rw [goTrimSpace_as_rdrop, goTrimSpace_as_rdrop, dropWhile_goToUpper,
    rdropWhile_goToUpper]

theorem sanitise_idem (s : Fingerprint) :
    SanitiseFingerprint (SanitiseFingerprint s) = SanitiseFingerprint s := by
  unfold SanitiseFingerprint
  rw [goTrimSpace_goToUpper, goTrimSpace_idem, goToUpper_idem]

end Zoossh

namespace Zoossh

theorem storeSet_cons {H : Type} (ke : Fingerprint) (ve : H) (rest : Store H)
    (k : Fingerprint) (v : H) :
    storeSet ((ke, ve) :: rest) k v =
      if ke = k then (k, v) :: rest else (ke, ve) :: storeSet rest k v := rfl

theorem storeLookup_cons {H : Type} (ke : Fingerprint) (ve : H) (rest : Store H)
    (k : Fingerprint) :
    storeLookup ((ke, ve) :: rest) k =
      if ke = k then some ve else storeLookup rest k := rfl

theorem storeKeys_cons {H : Type} (e : Fingerprint × H) (rest : Store H) :
    storeKeys (e :: rest) = e.1 :: storeKeys rest := rfl

theorem storeLookup_set {H : Type} (m : Store H) (k : Fingerprint) (v : H)
    (k' : Fingerprint) :
    storeLookup (storeSet m k v) k' = if k = k' then some v else storeLookup m k' := by
  induction m with
  | nil => simp only [storeSet, storeLookup]
  | cons e rest ih =>
    obtain ⟨ke, ve⟩ := e
    rw [storeSet_cons]
    by_cases hek : ke = k
    · subst hek
      rw [if_pos rfl, storeLookup_cons, storeLookup_cons]
      by_cases h2 : ke = k'
      · rw [if_pos h2, if_pos h2]
      · rw [if_neg h2, if_neg h2, if_neg h2]
    · rw [if_neg hek, storeLookup_cons, storeLookup_cons, ih]
      by_cases h2 : ke = k'
      · subst h2
        have hk : ¬ k = ke := fun h => hek h.symm
        rw [if_pos rfl, if_pos rfl, if_neg hk]
      · rw [if_neg h2, if_neg h2]

theorem storeLookup_isSome_iff {H : Type} (m : Store H) (k : Fingerprint) :
    (storeLookup m k).isSome = true ↔ k ∈ storeKeys m := by
  induction m with
  | nil =>
    constructor
    · intro h
      exact absurd h (by rw [show storeLookup ([] : Store H) k = none from rfl]; simp)
    · intro h
      exact absurd h (by rw [show storeKeys ([] : Store H) = [] from rfl]; simp)
  | cons e rest ih =>
    obtain ⟨ke, ve⟩ := e
    rw [storeKeys_cons, List.mem_cons, storeLookup_cons]
    by_cases h : ke = k
    · subst h
      rw [if_pos rfl]
      constructor
      · intro _
        exact Or.inl rfl
      · intro _
        rfl
    · have hk : ¬ k = ke := fun h2 => h h2.symm
      rw [if_neg h, ih]
      constructor
      · exact fun h2 => Or.inr h2
      · intro h2
        rcases h2 with h2 | h2
        · exact absurd h2 hk
        · exact h2

theorem storeLookup_eq_none_iff {H : Type} (m : Store H) (k : Fingerprint) :
    storeLookup m k = none ↔ k ∉ storeKeys m := by
  rw [← storeLookup_isSome_iff]
  cases storeLookup m k
  · simp
  · simp

theorem mem_storeKeys_set {H : Type} (m : Store H) (k : Fingerprint) (v : H)
    (k' : Fingerprint) :
    k' ∈ storeKeys (storeSet m k v) ↔ k' ∈ storeKeys m ∨ k' = k := by
  rw [← storeLookup_isSome_iff, ← storeLookup_isSome_iff, storeLookup_set]
  by_cases h : k = k'
  · subst h
    rw [if_pos rfl]
    simp
  · rw [if_neg h]
    have hk : ¬ k' = k := fun h2 => h h2.symm
    constructor
    · intro h2
      exact Or.inl h2
    · intro h2
      rcases h2 with h2 | h2
      · exact h2
      · exact absurd h2 hk

end Zoossh

namespace Zoossh

theorem subtractLoop_frame (entries : List (Fingerprint × RouterStatus)) :
    ∀ st : Consensus × Consensus × Consensus,
      (Consensus.SubtractLoop entries st).1 = st.1 ∧
        (Consensus.SubtractLoop entries st).2.1 = st.2.1 := by
  induction entries with
  | nil => intro st; exact ⟨rfl, rfl⟩
  | cons e rest ih =>
    intro st
    obtain ⟨a, b, acc⟩ := st
    obtain ⟨fp, h⟩ := e
    exact ih _

theorem intersectLoop_frame (entries : List (Fingerprint × RouterStatus)) :
    ∀ st : Consensus × Consensus × Consensus,
      (Consensus.IntersectLoop entries st).1 = st.1 ∧
        (Consensus.IntersectLoop entries st).2.1 = st.2.1 := by
  induction entries with
  | nil => intro st; exact ⟨rfl, rfl⟩
  | cons e rest ih =>
    intro st
    obtain ⟨a, b, acc⟩ := st
    obtain ⟨fp, h⟩ := e
    exact ih _

theorem subtractLoop_lookup (b : Consensus) :
    ∀ (entries : List (Fingerprint × RouterStatus)) (a acc : Consensus)
      (f : Fingerprint),
      (storeKeys entries).Nodup →
      (∀ k, k ∈ storeKeys acc → k ∉ storeKeys entries) →
      storeLookup (Consensus.SubtractLoop entries (a, b, acc)).2.2 f =
        if f ∈ storeKeys entries ∧ storeLookup b f = none then storeLookup entries f
        else storeLookup acc f := by
  intro entries
  induction entries with
  | nil =>
    intro a acc f _ _
    rw [if_neg]
    · rfl
    · intro h
      exact absurd h.1 (by rw [show storeKeys ([] : Store RouterStatus) = [] from rfl]; simp)
  | cons e rest ih =>
    intro a acc f hnd hdisj
    obtain ⟨k, v⟩ := e
    rw [storeKeys_cons] at hnd
    have hknd : k ∉ storeKeys rest := (List.nodup_cons.mp hnd).1
    have hrnd : (storeKeys rest).Nodup := (List.nodup_cons.mp hnd).2
    have hmemc : ∀ g : Fingerprint, g ∈ storeKeys ((k, v) :: rest) ↔ g = k ∨ g ∈ storeKeys rest := by
      intro g
      rw [storeKeys_cons, List.mem_cons]
    show storeLookup (Consensus.SubtractLoop rest (a, b, _)).2.2 f = _
    by_cases hb : (storeLookup b k).isSome
    · have hbn : ¬ storeLookup b k = none := by
        intro h
        rw [h] at hb
        exact absurd hb (by simp)
      rw [if_pos hb]
      rw [ih a acc f hrnd (by
        intro k2 hk2 hm
        exact hdisj k2 hk2 ((hmemc k2).mpr (Or.inr hm)))]
      by_cases hf : f = k
      · subst hf
        rw [if_neg (fun h => hbn h.2), if_neg (fun h => hbn h.2)]
      · have hkf : ¬ k = f := fun h => hf h.symm
        by_cases hc : f ∈ storeKeys rest ∧ storeLookup b f = none
        · rw [if_pos hc, if_pos ⟨(hmemc f).mpr (Or.inr hc.1), hc.2⟩,
            storeLookup_cons, if_neg hkf]
        · rw [if_neg hc, if_neg (by
            intro h
            exact hc ⟨((hmemc f).mp h.1).resolve_left hf, h.2⟩)]
    · have hbn : storeLookup b k = none := by
        cases hx : storeLookup b k
        · rfl
        · rw [hx] at hb
          exact absurd rfl hb
      rw [if_neg hb]
      rw [ih a (storeSet acc k v) f hrnd (by
        intro k2 hk2 hm
        rw [mem_storeKeys_set] at hk2
        rcases hk2 with hk2 | hk2
        · exact hdisj k2 hk2 ((hmemc k2).mpr (Or.inr hm))
        · subst hk2
          exact hknd hm)]
      by_cases hf : f = k
      · subst hf
        rw [if_neg (fun h => hknd h.1), storeLookup_set, if_pos rfl,
          if_pos ⟨(hmemc f).mpr (Or.inl rfl), hbn⟩, storeLookup_cons, if_pos rfl]
      · have hkf : ¬ k = f := fun h => hf h.symm
        by_cases hc : f ∈ storeKeys rest ∧ storeLookup b f = none
        · rw [if_pos hc, if_pos ⟨(hmemc f).mpr (Or.inr hc.1), hc.2⟩,
            storeLookup_cons, if_neg hkf]
        · rw [if_neg hc, storeLookup_set, if_neg hkf, if_neg (by
            intro h
            exact hc ⟨((hmemc f).mp h.1).resolve_left hf, h.2⟩)]

theorem intersectLoop_lookup (b : Consensus) :
    ∀ (entries : List (Fingerprint × RouterStatus)) (a acc : Consensus)
      (f : Fingerprint),
      (storeKeys entries).Nodup →
      (∀ k, k ∈ storeKeys acc → k ∉ storeKeys entries) →
      storeLookup (Consensus.IntersectLoop entries (a, b, acc)).2.2 f =
        if f ∈ storeKeys entries ∧ (storeLookup b f).isSome = true then storeLookup entries f
        else storeLookup acc f := by
  intro entries
  induction entries with
  | nil =>
    intro a acc f _ _
    rw [if_neg]
    · rfl
    · intro h
      exact absurd h.1 (by rw [show storeKeys ([] : Store RouterStatus) = [] from rfl]; simp)
  | cons e rest ih =>
    intro a acc f hnd hdisj
    obtain ⟨k, v⟩ := e
    rw [storeKeys_cons] at hnd
    have hknd : k ∉ storeKeys rest := (List.nodup_cons.mp hnd).1
    have hrnd : (storeKeys rest).Nodup := (List.nodup_cons.mp hnd).2
    have hmemc : ∀ g : Fingerprint, g ∈ storeKeys ((k, v) :: rest) ↔ g = k ∨ g ∈ storeKeys rest := by
      intro g
      rw [storeKeys_cons, List.mem_cons]
    show storeLookup (Consensus.IntersectLoop rest (a, b, _)).2.2 f = _
    by_cases hb : (storeLookup b k).isSome
    · rw [if_pos hb]
      rw [ih a (storeSet acc k v) f hrnd (by
        intro k2 hk2 hm
        rw [mem_storeKeys_set] at hk2
        rcases hk2 with hk2 | hk2
        · exact hdisj k2 hk2 ((hmemc k2).mpr (Or.inr hm))
        · subst hk2
          exact hknd hm)]
      by_cases hf : f = k
      · subst hf
        rw [if_neg (fun h => hknd h.1), storeLookup_set, if_pos rfl,
          if_pos ⟨(hmemc f).mpr (Or.inl rfl), hb⟩, storeLookup_cons, if_pos rfl]
      · have hkf : ¬ k = f := fun h => hf h.symm
        by_cases hc : f ∈ storeKeys rest ∧ (storeLookup b f).isSome = true
        · rw [if_pos hc, if_pos ⟨(hmemc f).mpr (Or.inr hc.1), hc.2⟩,
            storeLookup_cons, if_neg hkf]
        · rw [if_neg hc, storeLookup_set, if_neg hkf, if_neg (by
            intro h
            exact hc ⟨((hmemc f).mp h.1).resolve_left hf, h.2⟩)]
    · rw [if_neg hb]
      rw [ih a acc f hrnd (by
        intro k2 hk2 hm
        exact hdisj k2 hk2 ((hmemc k2).mpr (Or.inr hm)))]
      by_cases hf : f = k
      · subst hf
        rw [if_neg (fun h => hb h.2), if_neg (fun h => hb h.2)]
      · have hkf : ¬ k = f := fun h => hf h.symm
        by_cases hc : f ∈ storeKeys rest ∧ (storeLookup b f).isSome = true
        · rw [if_pos hc, if_pos ⟨(hmemc f).mpr (Or.inr hc.1), hc.2⟩,
            storeLookup_cons, if_neg hkf]
        · rw [if_neg hc, if_neg (by
            intro h
            exact hc ⟨((hmemc f).mp h.1).resolve_left hf, h.2⟩)]

end Zoossh

namespace Zoossh

/-- C1: the claim states that after self.merge(other) the key set of self
is the union of both key sets for both store implementations.  The
descriptor implementation contradicts this: its loop ranges over the
receiver instead of the argument, so merging a non-empty store into an
empty one inserts nothing.  This theorem evaluates RouterDescriptors.Merge
at that failing input: the argument store holds one descriptor under its
sanitised fingerprint, yet the merged receiver stays empty. -/
theorem c1_descriptor_merge_inserts_nothing :
    RouterDescriptors.Merge [] sampleDescStore = [] ∧
    storeLookup sampleDescStore (SanitiseFingerprint sampleDescriptor.Fingerprint) =
      some sampleDescriptor ∧
    storeLookup (RouterDescriptors.Merge [] sampleDescStore)
      (SanitiseFingerprint sampleDescriptor.Fingerprint) = none := by
  refine ⟨rfl, by decide, rfl⟩

/-- C3: a fingerprint is a key of a.Intersect(b) exactly when it is a key
of a and of b, a key of a.Subtract(b) exactly when it is a key of a and not
of b, and in both results the handle stored under the fingerprint is the
one a held. -/
theorem c3_intersect_subtract_semantics :
    ∀ (a b : Consensus) (f : Fingerprint), (storeKeys a).Nodup →
      (f ∈ storeKeys (Consensus.Intersect a b) ↔ f ∈ storeKeys a ∧ f ∈ storeKeys b) ∧
      (f ∈ storeKeys (Consensus.Subtract a b) ↔ f ∈ storeKeys a ∧ f ∉ storeKeys b) ∧
      (∀ h, storeLookup (Consensus.Intersect a b) f = some h → storeLookup a f = some h) ∧
      (∀ h, storeLookup (Consensus.Subtract a b) f = some h → storeLookup a f = some h) := by
  intro a b f hnd
  have hempty : ∀ k : Fingerprint, k ∈ storeKeys ([] : Consensus) → k ∉ storeKeys a := by
    intro k hk
    rw [show storeKeys ([] : Consensus) = [] from rfl] at hk
    exact absurd hk (List.not_mem_nil k)
  have hi : storeLookup (Consensus.Intersect a b) f =
      if f ∈ storeKeys a ∧ (storeLookup b f).isSome = true then storeLookup a f
      else none := by
    show storeLookup (Consensus.IntersectLoop a (a, b, [])).2.2 f = _
    rw [intersectLoop_lookup b a a [] f hnd hempty]
    rfl
  have hs : storeLookup (Consensus.Subtract a b) f =
      if f ∈ storeKeys a ∧ storeLookup b f = none then storeLookup a f
      else none := by
    show storeLookup (Consensus.SubtractLoop a (a, b, [])).2.2 f = _
    rw [subtractLoop_lookup b a a [] f hnd hempty]
    rfl
  refine ⟨?_, ?_, ?_, ?_⟩
  · rw [← storeLookup_isSome_iff, hi]
    by_cases hc : f ∈ storeKeys a ∧ (storeLookup b f).isSome = true
    · rw [if_pos hc]
      constructor
      · intro _
        exact ⟨hc.1, (storeLookup_isSome_iff b f).mp hc.2⟩
      · intro _
        exact (storeLookup_isSome_iff a f).mpr hc.1
    · rw [if_neg hc]
      constructor
      · intro h
        exact absurd h (by simp)
      · intro h
        exact absurd ⟨h.1, (storeLookup_isSome_iff b f).mpr h.2⟩ hc
  · rw [← storeLookup_isSome_iff, hs]
    by_cases hc : f ∈ storeKeys a ∧ storeLookup b f = none
    · rw [if_pos hc]
      constructor
      · intro _
        exact ⟨hc.1, (storeLookup_eq_none_iff b f).mp hc.2⟩
      · intro _
        exact (storeLookup_isSome_iff a f).mpr hc.1
    · rw [if_neg hc]
      constructor
      · intro h
        exact absurd h (by simp)
      · intro h
        exact absurd ⟨h.1, (storeLookup_eq_none_iff b f).mpr h.2⟩ hc
  · intro h hh
    rw [hi] at hh
    by_cases hc : f ∈ storeKeys a ∧ (storeLookup b f).isSome = true
    · rw [if_pos hc] at hh
      exact hh
    · rw [if_neg hc] at hh
      exact absurd hh (by simp)
  · intro h hh
    rw [hs] at hh
    by_cases hc : f ∈ storeKeys a ∧ storeLookup b f = none
    · rw [if_pos hc] at hh
      exact hh
    · rw [if_neg hc] at hh
      exact absurd hh (by simp)

/-- Witness for C3 at the concrete example of the specification: stores
with key sets F1 F2 F3 and F2 F3 F4; F2 is a key of the intersection. -/
theorem c3_witness :
    lit "F2" ∈ storeKeys (Consensus.Intersect
      [(lit "F1", newRouterStatus), (lit "F2", newRouterStatus), (lit "F3", newRouterStatus)]
      [(lit "F2", newRouterStatus), (lit "F3", newRouterStatus), (lit "F4", newRouterStatus)]) :=
  ((c3_intersect_subtract_semantics
      [(lit "F1", newRouterStatus), (lit "F2", newRouterStatus), (lit "F3", newRouterStatus)]
      [(lit "F2", newRouterStatus), (lit "F3", newRouterStatus), (lit "F4", newRouterStatus)]
      (lit "F2") (by decide)).1).mpr ⟨by decide, by decide⟩

/-- C10: Subtract and Intersect thread the receiver and the argument
unmodified through their loops and build the returned store from a fresh
empty map: after the call both operands hold exactly the mappings they
held before. -/
theorem c10_subtract_intersect_frame :
    ∀ a b : Consensus,
      (Consensus.SubtractFull a b).1 = a ∧ (Consensus.SubtractFull a b).2.1 = b ∧
      (Consensus.IntersectFull a b).1 = a ∧ (Consensus.IntersectFull a b).2.1 = b := by
  intro a b
  exact ⟨(subtractLoop_frame a (a, b, [])).1, (subtractLoop_frame a (a, b, [])).2,
    (intersectLoop_frame a (a, b, [])).1, (intersectLoop_frame a (a, b, [])).2⟩

end Zoossh

namespace Zoossh

theorem mergeLoop_keys_sanitised (objs : List RouterStatus) :
    ∀ c : Consensus, (∀ k, k ∈ storeKeys c → SanitiseFingerprint k = k) →
      ∀ k, k ∈ storeKeys (Consensus.MergeLoop c objs) → SanitiseFingerprint k = k := by
  induction objs with
  | nil => intro c hc; exact hc
  | cons obj rest ih =>
    intro c hc k hk
    refine ih _ ?_ k hk
    intro k2 hk2
    by_cases he : (Consensus.Get c obj.Fingerprint).isSome
    · rw [show Consensus.MergeLoop c (obj :: rest) =
        Consensus.MergeLoop (if (Consensus.Get c obj.Fingerprint).isSome then c
          else Consensus.Set c obj.Fingerprint obj) rest from rfl] at hk
      rw [if_pos he] at hk2
      exact hc k2 hk2
    · rw [if_neg he] at hk2
      rw [show Consensus.Set c obj.Fingerprint obj =
        storeSet c (SanitiseFingerprint obj.Fingerprint) obj from rfl,
        mem_storeKeys_set] at hk2
      rcases hk2 with hk2 | hk2
      · exact hc k2 hk2
      · rw [hk2]
        exact sanitise_idem _

/-- C4: every key of a consensus reachable through NewConsensus, Set,
Merge, or the insertion of the parse loop is a fixed point of
SanitiseFingerprint, and every lookup sanitises its argument before the
map access. -/
theorem c4_keys_sanitised :
    ∀ c : Consensus, Reachable c →
      (∀ k, k ∈ storeKeys c → SanitiseFingerprint k = k) ∧
      (∀ fp, Consensus.Get c fp = storeLookup c (SanitiseFingerprint fp)) := by
  intro c hr
  refine ⟨?_, fun _ => rfl⟩
  induction hr with
  | new =>
    intro k hk
    rw [show storeKeys ([] : Consensus) = [] from rfl] at hk
    exact absurd hk (List.not_mem_nil k)
  | set c fp st _ ih =>
    intro k hk
    rw [show Consensus.Set c fp st = storeSet c (SanitiseFingerprint fp) st from rfl,
      mem_storeKeys_set] at hk
    rcases hk with hk | hk
    · exact ih k hk
    · rw [hk]
      exact sanitise_idem _
  | merge c objs _ ih =>
    exact mergeLoop_keys_sanitised (objs.map Prod.snd) c ih
  | parseInsert c fp st _ ih =>
    intro k hk
    rw [mem_storeKeys_set] at hk
    rcases hk with hk | hk
    · exact ih k hk
    · rw [hk]
      exact sanitise_idem _

/-- Witness for C4: a store built by Set from a raw fingerprint with
white space and lower case; its key is a fixed point of the sanitiser. -/
theorem c4_witness :
    SanitiseFingerprint (lit "AB") = lit "AB" :=
  (c4_keys_sanitised (Consensus.Set [] (lit " ab") newRouterStatus)
    (Reachable.set [] (lit " ab") newRouterStatus Reachable.new)).1
    (lit "AB") (by decide)

end Zoossh

namespace Zoossh

/-- C7: iterating with a nil or empty filter yields exactly the stored
records, a non-empty filter yields exactly the records satisfying the
disjunction of the three category tests, and IsEmpty holds exactly when
all three category sets are empty. -/
theorem c7_iterate_filter_semantics :
    ∀ (c : Consensus) (filter : Option ObjectFilter),
      (∀ st : RouterStatus,
        st ∈ Consensus.Iterate c filter ↔
          st ∈ c.map Prod.snd ∧
            (filter = none ∨ ∃ f, filter = some f ∧
              (f.IsEmpty = true ∨ f.HasFingerprint st.Fingerprint = true ∨
                f.HasIPAddr st.Address = true ∨ f.HasNickname st.Nickname = true))) ∧
      (∀ f : ObjectFilter,
        f.IsEmpty = true ↔ f.Fingerprints = [] ∧ f.IPAddrs = [] ∧ f.Nicknames = []) := by
  intro c filter
  constructor
  · intro st
    cases filter with
    | none =>
      simp only [Consensus.Iterate, List.mem_filter]
      constructor
      · intro h
        exact ⟨h.1, Or.inl trivial⟩
      · intro h
        exact ⟨h.1, trivial⟩
    | some f =>
      simp only [Consensus.Iterate, List.mem_filter, ObjectFilter.MatchesRouterStatus,
        Bool.or_eq_true]
      constructor
      · intro h
        refine ⟨h.1, Or.inr ⟨f, rfl, ?_⟩⟩
        have h2 := h.2
        tauto
      · intro h
        refine ⟨h.1, ?_⟩
        rcases h.2 with h2 | ⟨f2, hf2, h2⟩
        · exact absurd h2 (by simp)
        · have h3 : f = f2 := by injection hf2
          subst h3
          tauto
  · intro f
    rw [ObjectFilter.IsEmpty, Bool.and_eq_true, Bool.and_eq_true,
      List.isEmpty_iff, List.isEmpty_iff, List.isEmpty_iff]
    tauto

end Zoossh

namespace Zoossh

theorem strIndex_prefix (pat : Str) :
    ∀ (s : Str) (i : Nat), strIndex pat s = some i → pat <+: s.drop i := by
  intro s
  induction s with
  | nil =>
    intro i h
    by_cases hp : pat.isPrefixOf ([] : Str)
    · rw [show strIndex pat [] = if pat.isPrefixOf ([] : Str) then some 0 else none from rfl,
        if_pos hp] at h
      injection h with h2
      subst h2
      exact List.isPrefixOf_iff_prefix.mp hp
    · rw [show strIndex pat [] = if pat.isPrefixOf ([] : Str) then some 0 else none from rfl,
        if_neg hp] at h
      exact absurd h (by simp)
  | cons c t ih =>
    intro i h
    rw [show strIndex pat (c :: t) =
      if pat.isPrefixOf (c :: t) then some 0 else (strIndex pat t).map (· + 1) from rfl] at h
    by_cases hp : pat.isPrefixOf (c :: t)
    · rw [if_pos hp] at h
      injection h with h2
      subst h2
      exact List.isPrefixOf_iff_prefix.mp hp
    · rw [if_neg hp] at h
      cases hx : strIndex pat t with
      | none =>
        rw [hx] at h
        exact absurd h (by simp)
      | some j =>
        rw [hx] at h
        simp only [Option.map] at h
        injection h with h2
        subst h2
        exact ih j hx

theorem nlr_prefix_line (data : Str) (i : Nat)
    (h : lit "\nr " <+: data.drop i) :
    data[i]? = some '\n' ∧ lit "r " <+: data.drop (i + 1) := by
  obtain ⟨t2, ht⟩ := h
  have hd : data.drop i = '\n' :: (lit "r " ++ t2) := by
    rw [← ht]
    rfl
  constructor
  · have h0 : (data.drop i)[0]? = some '\n' := by
      rw [hd]
      rfl
    rw [List.getElem?_drop] at h0
    simpa using h0
  · have hdd : data.drop (i + 1) = (data.drop i).drop 1 := by
      rw [List.drop_drop]
    rw [hdd, hd]
    exact ⟨t2, rfl⟩

theorem findStart_lineStart (data : Str) (s : Nat) (h : findStart data = some s) :
    lineStartAt data s := by
  unfold findStart at h
  by_cases hp : startsWith data (lit "r ")
  · rw [if_pos hp] at h
    injection h with h2
    subst h2
    constructor
    · exact List.isPrefixOf_iff_prefix.mp hp
    · exact Or.inl rfl
  · rw [if_neg hp] at h
    cases hx : strIndex (lit "\nr ") data with
    | none =>
      rw [hx] at h
      exact absurd h (by simp)
    | some i =>
      rw [hx] at h
      injection h with h2
      subst h2
      have hpre := strIndex_prefix (lit "\nr ") data i hx
      obtain ⟨hnl, hr⟩ := nlr_prefix_line data i hpre
      exact ⟨hr, Or.inr (by simpa using hnl)⟩

/-- C5: a record boundary is recognised only at offset 0 of the buffer or
immediately after a newline: every token extractStatusEntry returns starts
at a line-anchored occurrence of the record marker, and when the token is
not final the advance position is line-anchored as well, so an occurrence
of the marker in the middle of a line never cuts a record. -/
theorem c5_boundaries_line_anchored :
    ∀ (data : Str) (atEOF : Bool) (adv : Nat) (tok : Str) (fin : Bool),
      extractStatusEntry data atEOF = .token adv tok fin →
      ∃ s, findStart data = some s ∧ lineStartAt data s ∧
        tok = (data.drop s).take tok.length ∧
        (fin = false → adv = s + tok.length ∧ lineStartAt data adv) := by
  intro data atEOF adv tok fin h
  unfold extractStatusEntry at h
  split at h
  · exact absurd h (by simp)
  · split at h
    · split at h
      · exact absurd h (by simp)
      · exact absurd h (by simp)
    · rename_i start hfs
      refine ⟨start, hfs, findStart_lineStart data start hfs, ?_⟩
      split at h
      · rename_i e h1
        injection h with hadv htok hfin
        subst hadv
        subst htok
        subst hfin
        have hpre := strIndex_prefix (lit "\nr ") (data.drop start) e h1
        have hlen : e + 3 ≤ (data.drop start).length := by
          have h3 := hpre.length_le
          rw [List.length_drop, show (lit "\nr ").length = 3 from rfl] at h3
          omega
        have hl : ((data.drop start).take (e + 1)).length = e + 1 := by
          rw [List.length_take]
          omega
        refine ⟨by rw [hl], fun _ => ⟨by omega, ?_⟩⟩
        have hdd : (data.drop start).drop e = data.drop (start + e) := by
          rw [List.drop_drop]
        rw [hdd] at hpre
        obtain ⟨hnl, hr⟩ := nlr_prefix_line data (start + e) hpre
        exact ⟨hr, Or.inr hnl⟩
      · split at h
        · rename_i e h2
          injection h with hadv htok hfin
          subst hadv
          subst htok
          subst hfin
          have hpre := strIndex_prefix (lit "directory-signature") (data.drop start) e h2
          have hlen : e + 19 ≤ (data.drop start).length := by
            have h3 := hpre.length_le
            rw [List.length_drop,
              show (lit "directory-signature").length = 19 from rfl] at h3
            omega
          have hl : ((data.drop start).take e).length = e := by
            rw [List.length_take]
            omega
          refine ⟨by rw [hl], fun hff => ?_⟩
          exact absurd hff (by simp)
        · split at h
          · exact absurd h (by simp)
          · exact absurd h (by simp)

/-- Witness for C5 at a buffer whose second line contains the record
marker mid-line: the returned chunk starts at offset 0 and the advance
position sits right after a newline, so the embedded marker is kept inside
one chunk. -/
theorem c5_witness :
    ∃ s, findStart midMarkerInput = some s ∧ lineStartAt midMarkerInput s ∧
      lit "r a\nx r y\n" = (midMarkerInput.drop s).take (lit "r a\nx r y\n").length ∧
      (false = false → 10 = s + (lit "r a\nx r y\n").length ∧
        lineStartAt midMarkerInput 10) :=
  c5_boundaries_line_anchored midMarkerInput true 10 (lit "r a\nx r y\n") false (by decide)

end Zoossh

namespace Zoossh

/-- C6: at end of input extractStatusEntry signals the clean no-token,
no-error result exactly when the buffer is empty; a non-empty buffer with
no locatable start marker is the missing-start error, a located start with
neither a following start marker nor the terminal marker is the
unterminated-record error, and before end of input both cases request more
data instead of failing. -/
theorem c6_eof_and_error_classification :
    ∀ data : Str,
      (extractStatusEntry data true = .more ↔ data = []) ∧
      (data ≠ [] → findStart data = none →
        extractStatusEntry data true = .fail missingStartText) ∧
      (∀ s, findStart data = some s →
        strIndex (lit "\nr ") (data.drop s) = none →
        strIndex (lit "directory-signature") (data.drop s) = none →
        extractStatusEntry data true = .fail unterminatedText) ∧
      ((findStart data = none ∨ ∃ s, findStart data = some s ∧
          strIndex (lit "\nr ") (data.drop s) = none ∧
          strIndex (lit "directory-signature") (data.drop s) = none) →
        extractStatusEntry data false = .more) := by
  intro data
  refine ⟨⟨?_, ?_⟩, ?_, ?_, ?_⟩
  · intro h
    by_cases hd : data = []
    · exact hd
    · exfalso
      unfold extractStatusEntry at h
      rw [if_neg (fun h2 => hd h2.2)] at h
      cases hfs : findStart data with
      | none => simp [hfs] at h
      | some start =>
        cases h1 : strIndex (lit "\nr ") (data.drop start) with
        | some e => simp [hfs, h1] at h
        | none =>
          cases h2 : strIndex (lit "directory-signature") (data.drop start) with
          | some e => simp [hfs, h1, h2] at h
          | none => simp [hfs, h1, h2] at h
  · intro h
    subst h
    rfl
  · intro hne hfs
    unfold extractStatusEntry
    rw [if_neg (fun h2 => hne h2.2)]
    simp only [hfs]
    rfl
  · intro s hfs h1 h2
    unfold extractStatusEntry
    have hne : data ≠ [] := by
      intro h
      subst h
      rw [show findStart [] = none from rfl] at hfs
      exact absurd hfs (by simp)
    rw [if_neg (fun h3 => hne h3.2)]
    simp only [hfs, h1, h2]
    rfl
  · intro hcase
    unfold extractStatusEntry
    rw [if_neg (by simp)]
    rcases hcase with hfs | ⟨s, hfs, h1, h2⟩
    · simp only [hfs]
      rfl
    · simp only [hfs, h1, h2]
      rfl

/-- Witness for C6 at four concrete buffers: the empty buffer ends
cleanly, a marker-free buffer fails with the missing-start error, a
started but unterminated buffer fails with the unterminated error, and the
same buffers only request more data before end of input. -/
theorem c6_witness :
    extractStatusEntry [] true = .more ∧
    extractStatusEntry (lit "x") true = .fail missingStartText ∧
    extractStatusEntry (lit "r x") true = .fail unterminatedText ∧
    extractStatusEntry (lit "x") false = .more ∧
    extractStatusEntry (lit "r x") false = .more :=
  ⟨(c6_eof_and_error_classification []).1.mpr rfl,
    (c6_eof_and_error_classification (lit "x")).2.1 (by decide) (by decide),
    (c6_eof_and_error_classification (lit "r x")).2.2.1 0 (by decide) (by decide) (by decide),
    (c6_eof_and_error_classification (lit "x")).2.2.2 (Or.inl (by decide)),
    (c6_eof_and_error_classification (lit "r x")).2.2.2
      (Or.inr ⟨0, by decide, by decide, by decide⟩)⟩

end Zoossh

namespace Zoossh

/-- C2 counterexample: the claim states the parsed TorVersion of the
concrete record is the word Tor; the decoder stores words[2] of the v
line, which is the numeric version, so the claimed field value is wrong at
this input. -/
theorem c2_torversion_not_tor :
    (statusOf seeleRecordText).map RouterStatus.TorVersion ≠ some (lit "Tor") := by
  decide

set_option maxRecDepth 8000 in
/-- C2 as amended: tokenizing the concrete record followed by the terminal
marker yields exactly one chunk equal to the record text, and the decoded
record carries nickname seele, address 73.15.150.172, OR port 9001, Dir
port 0, exactly the flags Fast, Running, Stable and Valid, TorVersion
0.2.5.10 (the third space token of the v line), and bandwidth 18. -/
theorem c2_concrete_scenario :
    scanTokens seeleInput = .ok [seeleRecordText] ∧
    (statusOf seeleRecordText).map RouterStatus.Nickname = some (lit "seele") ∧
    (statusOf seeleRecordText).map RouterStatus.Address = some (some (73, 15, 150, 172)) ∧
    (statusOf seeleRecordText).map RouterStatus.ORPort = some 9001 ∧
    (statusOf seeleRecordText).map RouterStatus.DirPort = some 0 ∧
    (statusOf seeleRecordText).map RouterStatus.Flags = some seeleFlags ∧
    (statusOf seeleRecordText).map RouterStatus.TorVersion = some (lit "0.2.5.10") ∧
    (statusOf seeleRecordText).map RouterStatus.Bandwidth = some 18 := by
  refine ⟨by rfl, ?_, ?_, ?_, ?_, ?_, ?_, ?_⟩ <;> decide

end Zoossh

namespace Zoossh

theorem ok_bind {α β : Type} (a : α) (f : α → GoM β) :
    (Except.ok a >>= f : GoM β) = f a := rfl

theorem error_bind {α β : Type} (e : Fail) (f : α → GoM β) :
    ((Except.error e : GoM α) >>= f) = .error e := rfl

theorem getw_isOk (ws : List Str) (i : Nat) (h : i < ws.length) :
    ∃ w, getw ws i = .ok w := by
  unfold getw
  cases hx : ws[i]? with
  | none =>
    rw [List.getElem?_eq_none_iff] at hx
    omega
  | some w => exact ⟨w, rfl⟩

theorem getw_eq_getD (ws : List Str) (i : Nat) (h : i < ws.length) :
    getw ws i = .ok (ws.getD i []) := by
  unfold getw
  cases hx : ws[i]? with
  | none =>
    rw [List.getElem?_eq_none_iff] at hx
    omega
  | some w =>
    rw [show ws.getD i [] = w from by rw [List.getD, List.get?_eq_getElem?, hx]; rfl]

theorem slicew_isOk (ws : List Str) (lo hi : Nat) (h1 : lo ≤ hi)
    (h2 : hi ≤ ws.length) : ∃ part, slicew ws lo hi = .ok part := by
  unfold slicew
  rw [if_pos ⟨h1, h2⟩]
  exact ⟨_, rfl⟩

theorem parseStatusLine_no_crash (st : RouterStatus) (line : Str)
    (hok : lineTokenOK line) : parseStatusLine st line ≠ .error .crash := by
  obtain ⟨hr, hv, hw, hp⟩ := hok
  unfold parseStatusLine
  by_cases h0r : (split1 ' ' line).headD [] = lit "r"
  · have h9 := hr h0r
    rw [if_pos h0r]
    obtain ⟨w1, hw1⟩ := getw_isOk (split1 ' ' line) 1 (by omega)
    obtain ⟨w2, hw2⟩ := getw_isOk (split1 ' ' line) 2 (by omega)
    obtain ⟨w3, hw3⟩ := getw_isOk (split1 ' ' line) 3 (by omega)
    obtain ⟨ts, hts⟩ := slicew_isOk (split1 ' ' line) 4 6 (by omega) (by omega)
    obtain ⟨w6, hw6⟩ := getw_isOk (split1 ' ' line) 6 (by omega)
    obtain ⟨w7, hw7⟩ := getw_isOk (split1 ' ' line) 7 (by omega)
    obtain ⟨w8, hw8⟩ := getw_isOk (split1 ' ' line) 8 (by omega)
    simp only [hw1, ok_bind, hw2]
    cases hb2 : Base64ToString w2 with
    | error e =>
      simp only [liftB64, hb2, error_bind]
      intro hcon
      injection hcon with he
      exact absurd he (by simp)
    | ok fp =>
      simp only [liftB64, hb2, ok_bind, hw3]
      cases hb3 : Base64ToString w3 with
      | error e =>
        simp only [hb3, error_bind]
        intro hcon
        injection hcon with he
        exact absurd he (by simp)
      | ok dg =>
        simp only [hb3, ok_bind, hts, hw6, hw7, hw8]
        intro hcon
        exact absurd hcon (by simp [pure, Except.pure])
  · rw [if_neg h0r]
    by_cases h0s : (split1 ' ' line).headD [] = lit "s"
    · rw [if_pos h0s]
      obtain ⟨rest, hrest⟩ := slicew_isOk (split1 ' ' line) 1 (split1 ' ' line).length
        (by
          have : split1 ' ' line ≠ [] := by
            cases hl : split1 ' ' line with
            | nil =>
              exfalso
              rw [hl] at h0s
              cases line with
              | nil => exact absurd hl (by simp [split1])
              | cons c t =>
                simp only [split1] at hl
                by_cases hc : c = ' '
                · rw [if_pos hc] at hl
                  exact absurd hl (by simp)
                · rw [if_neg hc] at hl
                  rcases hx : split1 ' ' t with _ | ⟨g, gs⟩ <;> rw [hx] at hl <;>
                    exact absurd hl (by simp)
            | cons a b => exact (by simp)
          cases hl : split1 ' ' line with
          | nil => exact absurd hl this
          | cons a b => simp [hl])
        (le_refl _)
      simp only [hrest, ok_bind]
      intro hcon
      exact absurd hcon (by simp [pure, Except.pure])
    · rw [if_neg h0s]
      by_cases h0v : (split1 ' ' line).headD [] = lit "v"
      · have h3 := hv h0v
        rw [if_pos h0v]
        obtain ⟨w2, hw2⟩ := getw_isOk (split1 ' ' line) 2 (by omega)
        simp only [hw2, ok_bind]
        intro hcon
        exact absurd hcon (by simp [pure, Except.pure])
      · rw [if_neg h0v]
        by_cases h0w : (split1 ' ' line).headD [] = lit "w"
        · have hw2 := hw h0w
          rw [if_pos h0w]
          rw [getw_eq_getD (split1 ' ' line) 1 (by omega)]
          simp only [ok_bind]
          obtain ⟨v1, hv1⟩ := getw_isOk (split1 '=' ((split1 ' ' line).getD 1 [])) 1
            (by omega)
          simp only [hv1, ok_bind]
          intro hcon
          exact absurd hcon (by simp [pure, Except.pure])
        · rw [if_neg h0w]
          by_cases h0p : (split1 ' ' line).headD [] = lit "p"
          · have h2 := hp h0p
            rw [if_pos h0p]
            obtain ⟨w1, hw1⟩ := getw_isOk (split1 ' ' line) 1 (by omega)
            obtain ⟨rest, hrest⟩ := slicew_isOk (split1 ' ' line) 2
              (split1 ' ' line).length (by omega) (le_refl _)
            simp only [hw1, ok_bind, hrest]
            intro hcon
            exact absurd hcon (by simp [pure, Except.pure])
          · rw [if_neg h0p]
            intro hcon
            exact absurd hcon (by simp [pure, Except.pure])

end Zoossh

namespace Zoossh

theorem foldlM_parse_no_crash :
    ∀ (lines : List Str) (st : RouterStatus),
      (∀ l ∈ lines, lineTokenOK l) →
      List.foldlM parseStatusLine st lines ≠ .error .crash := by
  intro lines
  induction lines with
  | nil =>
    intro st _ hcon
    exact absurd hcon (by simp [List.foldlM, pure, Except.pure])
  | cons l rest ih =>
    intro st hall
    have hl := hall l (List.mem_cons_self _ _)
    have hrest : ∀ l2 ∈ rest, lineTokenOK l2 :=
      fun l2 h2 => hall l2 (List.mem_cons_of_mem _ h2)
    rw [show List.foldlM parseStatusLine st (l :: rest) =
      parseStatusLine st l >>= fun st2 => List.foldlM parseStatusLine st2 rest from rfl]
    cases hx : parseStatusLine st l with
    | ok st2 =>
      simp only [hx, ok_bind]
      exact ih st2 hrest
    | error e =>
      simp only [hx, error_bind]
      intro hcon
      injection hcon with he
      rw [he] at hx
      exact parseStatusLine_no_crash st l hl hx

theorem ParseRawStatus_no_crash (s : Str) (h : wellFormedStatus s) :
    ParseRawStatus s ≠ .error .crash := by
  show (List.foldlM parseStatusLine newRouterStatus (split1 '\n' s) >>=
    fun status => pure (status.Fingerprint, status)) ≠ .error .crash
  cases hx : List.foldlM parseStatusLine newRouterStatus (split1 '\n' s) with
  | ok st =>
    simp only [hx, ok_bind]
    intro hcon
    exact absurd hcon (by simp [pure, Except.pure])
  | error e =>
    simp only [hx, error_bind]
    intro hcon
    injection hcon with he
    rw [he] at hx
    exact foldlM_parse_no_crash (split1 '\n' s) newRouterStatus h hx

theorem lazyScan_no_crash :
    ∀ lines : List Str, (∀ l ∈ lines, lineTokenOK l) →
      lazyFingerprintScan lines ≠ .error .crash := by
  intro lines
  induction lines with
  | nil =>
    intro _ hcon
    exact absurd hcon (by simp [lazyFingerprintScan])
  | cons l rest ih =>
    intro hall
    have hl := hall l (List.mem_cons_self _ _)
    have hrest : ∀ l2 ∈ rest, lineTokenOK l2 :=
      fun l2 h2 => hall l2 (List.mem_cons_of_mem _ h2)
    unfold lazyFingerprintScan
    by_cases h0r : (split1 ' ' l).headD [] = lit "r"
    · rw [if_pos h0r]
      have h9 := hl.1 h0r
      obtain ⟨w2, hw2⟩ := getw_isOk (split1 ' ' l) 2 (by omega)
      simp only [hw2, ok_bind]
      cases hb : Base64ToString w2 with
      | ok fp =>
        simp only [hb]
        intro hcon
        exact absurd hcon (by simp [pure, Except.pure])
      | error e =>
        simp only [hb]
        intro hcon
        exact absurd hcon (by simp [pure, Except.pure])
    · rw [if_neg h0r]
      exact ih hrest

/-- C8 counterexample: the claim states that short recognised keyword
lines produce a decode error rather than a runtime fault; on the one-word
input r the decoder reads words[1] of a one-element word list, which is an
out-of-range index, a runtime fault in Go. -/
theorem c8_short_r_line_crashes :
    ParseRawStatus (lit "r") = .error .crash := by
  rfl

/-- C8 as amended: for every input whose recognised keyword lines carry
enough positional tokens (an r line at least 9 space-separated words, a v
line at least 3, a w line at least 2 with an equals sign in its first
value, a p line at least 2), ParseRawStatus and LazyParseRawStatus return
a status or a decode error and never a runtime fault; on shorter
recognised lines the out-of-range index faults. -/
theorem c8_no_crash_when_wellformed :
    ∀ s : Str, wellFormedStatus s →
      ParseRawStatus s ≠ .error .crash ∧ LazyParseRawStatus s ≠ .error .crash := by
  intro s h
  exact ⟨ParseRawStatus_no_crash s h, lazyScan_no_crash (split1 '\n' s) h⟩

/-- Witness for C8 at the concrete record of the specification, whose
lines all carry enough tokens. -/
theorem c8_witness :
    ParseRawStatus seeleRecordText ≠ .error .crash ∧
    LazyParseRawStatus seeleRecordText ≠ .error .crash :=
  c8_no_crash_when_wellformed seeleRecordText (by decide)

end Zoossh

namespace Zoossh

theorem split1_ne_nil (sep : Char) (s : Str) : split1 sep s ≠ [] := by
  cases s with
  | nil => simp [split1]
  | cons c t =>
    simp only [split1]
    by_cases hc : c = sep
    · rw [if_pos hc]
      simp
    · rw [if_neg hc]
      rcases hx : split1 sep t with _ | ⟨g, gs⟩ <;> simp

theorem parseStatusLine_non_r_fingerprint (st : RouterStatus) (l : Str)
    (h0r : ¬((split1 ' ' l).headD [] = lit "r")) (st2 : RouterStatus)
    (hpar : parseStatusLine st l = .ok st2) : st2.Fingerprint = st.Fingerprint := by
  unfold parseStatusLine at hpar
  rw [if_neg h0r] at hpar
  by_cases h0s : (split1 ' ' l).headD [] = lit "s"
  · rw [if_pos h0s] at hpar
    obtain ⟨rest, hrest⟩ := slicew_isOk (split1 ' ' l) 1 (split1 ' ' l).length
      (List.length_pos.mpr (split1_ne_nil ' ' l)) (le_refl _)
    simp only [hrest, ok_bind] at hpar
    injection hpar with h2
    rw [← h2]
  · rw [if_neg h0s] at hpar
    by_cases h0v : (split1 ' ' l).headD [] = lit "v"
    · rw [if_pos h0v] at hpar
      cases hx : getw (split1 ' ' l) 2 with
      | error e =>
        simp only [hx, error_bind] at hpar
        exact absurd hpar (by simp)
      | ok w2 =>
        simp only [hx, ok_bind] at hpar
        injection hpar with h2
        rw [← h2]
    · rw [if_neg h0v] at hpar
      by_cases h0w : (split1 ' ' l).headD [] = lit "w"
      · rw [if_pos h0w] at hpar
        cases hx : getw (split1 ' ' l) 1 with
        | error e =>
          simp only [hx, error_bind] at hpar
          exact absurd hpar (by simp)
        | ok w1 =>
          simp only [hx, ok_bind] at hpar
          cases hy : getw (split1 '=' w1) 1 with
          | error e =>
            simp only [hy, error_bind] at hpar
            exact absurd hpar (by simp)
          | ok v1 =>
            simp only [hy, ok_bind] at hpar
            injection hpar with h2
            rw [← h2]
      · rw [if_neg h0w] at hpar
        by_cases h0p : (split1 ' ' l).headD [] = lit "p"
        · rw [if_pos h0p] at hpar
          cases hx : getw (split1 ' ' l) 1 with
          | error e =>
            simp only [hx, error_bind] at hpar
            exact absurd hpar (by simp)
          | ok w1 =>
            simp only [hx, ok_bind] at hpar
            cases hy : slicew (split1 ' ' l) 2 (split1 ' ' l).length with
            | error e =>
              simp only [hy, error_bind] at hpar
              exact absurd hpar (by simp)
            | ok rest =>
              simp only [hy, ok_bind] at hpar
              injection hpar with h2
              rw [← h2]
              split <;> rfl
        · rw [if_neg h0p] at hpar
          injection hpar with h2
          rw [← h2]

theorem parseStatusLine_r_fingerprint (st : RouterStatus) (l : Str)
    (h0r : (split1 ' ' l).headD [] = lit "r") (st2 : RouterStatus)
    (hpar : parseStatusLine st l = .ok st2) :
    ∃ w2 hex, getw (split1 ' ' l) 2 = .ok w2 ∧ Base64ToString w2 = .ok hex ∧
      st2.Fingerprint = SanitiseFingerprint hex := by
  unfold parseStatusLine at hpar
  rw [if_pos h0r] at hpar
  cases h1 : getw (split1 ' ' l) 1 with
  | error e =>
    simp only [h1, error_bind] at hpar
    exact absurd hpar (by simp)
  | ok w1 =>
    simp only [h1, ok_bind] at hpar
    cases h2 : getw (split1 ' ' l) 2 with
    | error e =>
      simp only [h2, error_bind] at hpar
      exact absurd hpar (by simp)
    | ok w2 =>
      simp only [h2, ok_bind] at hpar
      cases hb : Base64ToString w2 with
      | error e =>
        simp only [hb, liftB64, error_bind] at hpar
        exact absurd hpar (by simp)
      | ok hex =>
        simp only [hb, liftB64, ok_bind] at hpar
        cases h3 : getw (split1 ' ' l) 3 with
        | error e =>
          simp only [h3, error_bind] at hpar
          exact absurd hpar (by simp)
        | ok w3 =>
          simp only [h3, ok_bind] at hpar
          cases hb3 : Base64ToString w3 with
          | error e =>
            simp only [hb3, liftB64, error_bind] at hpar
            exact absurd hpar (by simp)
          | ok dg =>
            simp only [hb3, liftB64, ok_bind] at hpar
            cases h46 : slicew (split1 ' ' l) 4 6 with
            | error e =>
              simp only [h46, error_bind] at hpar
              exact absurd hpar (by simp)
            | ok ts =>
              simp only [h46, ok_bind] at hpar
              cases h6 : getw (split1 ' ' l) 6 with
              | error e =>
                simp only [h6, error_bind] at hpar
                exact absurd hpar (by simp)
              | ok w6 =>
                simp only [h6, ok_bind] at hpar
                cases h7 : getw (split1 ' ' l) 7 with
                | error e =>
                  simp only [h7, error_bind] at hpar
                  exact absurd hpar (by simp)
                | ok w7 =>
                  simp only [h7, ok_bind] at hpar
                  cases h8 : getw (split1 ' ' l) 8 with
                  | error e =>
                    simp only [h8, error_bind] at hpar
                    exact absurd hpar (by simp)
                  | ok w8 =>
                    simp only [h8, ok_bind] at hpar
                    injection hpar with hrec
                    refine ⟨w2, hex, ?_, ?_, by rw [← hrec]⟩
                    · rfl
                    · exact hb

end Zoossh

namespace Zoossh

theorem foldlM_ok_cons (l : Str) (rest : List Str) (st stf : RouterStatus)
    (h : List.foldlM parseStatusLine st (l :: rest) = .ok stf) :
    ∃ st1, parseStatusLine st l = .ok st1 ∧
      List.foldlM parseStatusLine st1 rest = .ok stf := by
  rw [show List.foldlM parseStatusLine st (l :: rest) =
    parseStatusLine st l >>= fun st2 => List.foldlM parseStatusLine st2 rest from rfl] at h
  cases hx : parseStatusLine st l with
  | error e =>
    rw [hx] at h
    exact absurd h (by simp [error_bind])
  | ok st1 =>
    rw [hx, ok_bind] at h
    exact ⟨st1, rfl, h⟩

theorem foldlM_non_r_fingerprint :
    ∀ (lines : List Str) (st stf : RouterStatus),
      (∀ l ∈ lines, ¬((split1 ' ' l).headD [] = lit "r")) →
      List.foldlM parseStatusLine st lines = .ok stf →
      stf.Fingerprint = st.Fingerprint := by
  intro lines
  induction lines with
  | nil =>
    intro st stf _ h
    have h2 : (Except.ok st : GoM RouterStatus) = .ok stf := h
    injection h2 with h3
    rw [h3]
  | cons l rest ih =>
    intro st stf hall h
    obtain ⟨st1, h1, h2⟩ := foldlM_ok_cons l rest st stf h
    have hfp1 := parseStatusLine_non_r_fingerprint st l
      (hall l (List.mem_cons_self _ _)) st1 h1
    have hfp2 := ih st1 stf (fun l2 hm => hall l2 (List.mem_cons_of_mem _ hm)) h2
    rw [hfp2, hfp1]

theorem countR_cons (l : Str) (rest : List Str) :
    countR (l :: rest) =
      (if (split1 ' ' l).headD [] = lit "r" then 1 else 0) + countR rest := by
  unfold countR
  rw [List.filter_cons]
  by_cases h : (split1 ' ' l).headD [] = lit "r"
  · rw [if_pos h, if_pos (decide_eq_true h), List.length_cons]
    omega
  · rw [if_neg h, if_neg (fun hd => h (of_decide_eq_true hd)), Nat.zero_add]

theorem countR_zero_no_r (lines : List Str) (h : countR lines = 0) :
    ∀ l ∈ lines, ¬((split1 ' ' l).headD [] = lit "r") := by
  unfold countR at h
  rw [List.length_eq_zero, List.filter_eq_nil_iff] at h
  intro l hm hr
  exact h l hm (decide_eq_true hr)

theorem lazy_matches_eager :
    ∀ (lines : List Str) (st0 stf : RouterStatus),
      countR lines = 1 →
      List.foldlM parseStatusLine st0 lines = .ok stf →
      lazyFingerprintScan lines = .ok (stf.Fingerprint, none) := by
  intro lines
  induction lines with
  | nil =>
    intro st0 stf hc _
    exact absurd hc (by simp [countR])
  | cons l rest ih =>
    intro st0 stf hc hf
    obtain ⟨st1, h1, h2⟩ := foldlM_ok_cons l rest st0 stf hf
    by_cases h0r : (split1 ' ' l).headD [] = lit "r"
    · have hc0 : countR rest = 0 := by
        rw [countR_cons, if_pos h0r] at hc
        omega
      obtain ⟨w2, hex, hw2, hb, hfp1⟩ := parseStatusLine_r_fingerprint st0 l h0r st1 h1
      have hfpf : stf.Fingerprint = SanitiseFingerprint hex := by
        rw [foldlM_non_r_fingerprint rest st1 stf (countR_zero_no_r rest hc0) h2, hfp1]
      unfold lazyFingerprintScan
      rw [if_pos h0r]
      simp only [hw2, ok_bind, hb]
      rw [hfpf]
      rfl
    · have hc1 : countR rest = 1 := by
        rw [countR_cons, if_neg h0r] at hc
        omega
      have hlz := ih st1 stf hc1 h2
      unfold lazyFingerprintScan
      rw [if_neg h0r]
      exact hlz

/-- C9 counterexample: the claim states that whenever the eager parse
succeeds the lazy parse returns the same sanitised fingerprint; on a raw
status with two r lines carrying different fingerprints both succeed, yet
the eager parser keeps the fingerprint of the last r line while the lazy
scan returns that of the first. -/
theorem c9_two_r_lines_disagree :
    eagerFpOf twoRInput = some (lit "000001") ∧
    lazyFpOf twoRInput = some (lit "000000") ∧
    lit "000001" ≠ lit "000000" := by
  refine ⟨by rfl, by rfl, by decide⟩

/-- C9 as amended: for every raw status with exactly one r line on which
the eager parse succeeds, the lazy parse returns the same sanitised
fingerprint with no error, and the thunk behind the lazy handle yields the
very status the eager parse produced; the thunk is a pure function of the
chunk, so repeated invocation is deterministic by construction. -/
theorem c9_lazy_eager_agree :
    ∀ (s : Str) (fp : Fingerprint) (st : RouterStatus),
      rLineCount s = 1 → ParseRawStatus s = .ok (fp, st) →
      LazyParseRawStatus s = .ok (fp, none) ∧ lazyResolve s = .ok st := by
  intro s fp st hcount hok
  have hbody : (List.foldlM parseStatusLine newRouterStatus (split1 '\n' s) >>=
      fun status => pure (status.Fingerprint, status)) = .ok (fp, st) := hok
  have hfold : ∃ stf, List.foldlM parseStatusLine newRouterStatus (split1 '\n' s) = .ok stf ∧
      stf.Fingerprint = fp ∧ stf = st := by
    cases hx : List.foldlM parseStatusLine newRouterStatus (split1 '\n' s) with
    | error e =>
      rw [hx, error_bind] at hbody
      exact absurd hbody (by simp)
    | ok stf =>
      rw [hx, ok_bind] at hbody
      have hpair : (Except.ok (stf.Fingerprint, stf) : GoM (Fingerprint × RouterStatus)) =
          .ok (fp, st) := hbody
      injection hpair with hp
      injection hp with hp1 hp2
      exact ⟨stf, rfl, hp1, hp2⟩
  obtain ⟨stf, hx, hfp, hst⟩ := hfold
  constructor
  · show lazyFingerprintScan (split1 '\n' s) = .ok (fp, none)
    rw [← hfp]
    exact lazy_matches_eager (split1 '\n' s) newRouterStatus stf hcount hx
  · unfold lazyResolve
    rw [hok]

/-- Witness for C9 at a concrete one-r-line raw status. -/
theorem c9_witness :
    LazyParseRawStatus oneRInput = .ok (lit "000000", none) ∧
    lazyResolve oneRInput = .ok oneRStatus :=
  c9_lazy_eager_agree oneRInput (lit "000000") oneRStatus (by decide) (by rfl)

end Zoossh
